import Mathlib

set_option linter.dupNamespace false

/-!
Verification of the harald TCP/TLS forwarder against its specification.

The definitions below are a shallow embedding of the Go sources
(`config.go`, `harald.go`): each Go function is transcribed into a Lean
function over explicit state, with the standard-library parsing
primitives (`encoding/pem`, `crypto/x509`, `crypto/tls` key-pair
loading) and the network primitives (`net.Listen`, `net.DialTimeout`)
abstracted as oracle parameters, since they live outside the repository.
-/

/-! ## Basic types (config.go) -/

/-- Listener handles (`net.Listener`) are abstract identifiers. -/
abbrev Listener := Nat

/-- Go `type Duration time.Duration`: a nanosecond count. -/
abbrev Duration := Int

/-- Go method `(d *Duration) Duration()` from config.go: a nil receiver
yields the zero duration, otherwise the underlying value. The nilable
pointer receiver is modelled as an `Option`. -/
def Duration.Duration (d : Option Duration) : Duration :=
  match d with
  | none => 0
  | some v => v

/-- Go `tls.ClientAuthType` (an int): 0 is `NoClientCert`,
4 is `RequireAndVerifyClientCert`. -/
abbrev ClientAuthType := Int

/-- The value of `tls.RequireAndVerifyClientCert`. -/
def RequireAndVerifyClientCert : ClientAuthType := 4

/-- A parsed X.509 certificate, identified by its DER bytes. -/
structure Cert where
  der : List Nat
deriving DecidableEq

/-- A parsed certificate/key pair (`tls.Certificate`). -/
structure KeyPair where
  certPem : String
  keyPem : String
deriving DecidableEq

/-- One PEM block as returned by `pem.Decode`: a type label and
the payload bytes. -/
structure PemBlock where
  type : String
  bytes : List Nat
deriving DecidableEq

/-- The client-CA bundle string, seen through `pem.Decode`: the sequence
of PEM blocks successive calls to `pem.Decode` yield, plus whether after
the last block a non-empty undecodable byte range remains (on which
`pem.Decode` returns nil while bytes remain). The empty Go string
corresponds to no blocks and no trailing bytes. -/
structure CABundle where
  blocks : List PemBlock
  trailing : Bool
deriving DecidableEq

/-- Whether the bundle is the empty string (`t.ClientCAs == ""`). -/
def CABundle.isEmptyStr (b : CABundle) : Bool :=
  b.blocks.isEmpty && !b.trailing

/-- Go struct `TLS` from config.go (server-side TLS configuration
input). -/
structure TLS where
  Certificate : String
  Key : String
  ClientCAs : CABundle
  ApplicationProtocols : List String
  ClientAuth : ClientAuthType
deriving DecidableEq

/-- Go struct `NetConf` from config.go. -/
structure NetConf where
  Network : String
  Address : String
deriving DecidableEq

/-- Go struct `ForwardRule` from config.go. -/
structure ForwardRule where
  DialTimeout : Duration
  Listen : NetConf
  Connect : NetConf
  TLS : Option TLS
deriving DecidableEq

/-- Go struct `Config` from config.go; the `Rules` map is modelled as an
association list in iteration order. -/
structure Config where
  Version : Int
  LogLevel : Int
  DialTimeout : Duration
  EnableListeners : Bool
  Rules : List (String × ForwardRule)
deriving DecidableEq

/-- The server `tls.Config` assembled by `TLS.Config`: ALPN protocols,
the client-CA trust pool, the client-auth mode and the server
certificates. -/
structure TLSServerConfig where
  NextProtos : List String
  ClientCAs : List Cert
  ClientAuth : ClientAuthType
  Certificates : List KeyPair
deriving DecidableEq

/-- The error cases of `TLS.Config`, one constructor per `return nil,
err` site in config.go. -/
inductive TLSConfigError
  /-- The Go error "configuered client authentication but no client CAs provided". -/
  | clientAuthWithoutCAs
  /-- The Go error "parse certificate and private key" (`tls.X509KeyPair` failed). -/
  | keyPairParse
  /-- The Go error "found unparsable section in client CAs" (`pem.Decode` returned nil). -/
  | unparsableSection
  /-- The Go error "unexpected block in client CAs". -/
  | unexpectedBlockType (t : String)
  /-- The error of a failed `x509.ParseCertificate`. -/
  | certParse
  /-- The Go error "unable to parse provided client CAs" (non-empty bundle, zero certs). -/
  | noCertsParsed
deriving DecidableEq

/-! ## TLS Config Builder (config.go, `TLS.Config`) -/

/-- The client-CA parsing loop of `TLS.Config` (config.go lines
140-162): decode blocks while bytes remain; a nil decode is the
`unparsableSection` error, a block whose type is not CERTIFICATE is the
`unexpectedBlockType` error, an `x509.ParseCertificate` failure is the
`certParse` error; each parsed certificate is appended to the pool.
`parse` is the `x509.ParseCertificate` oracle. -/
def addCACerts (parse : List Nat → Option Cert) :
    List PemBlock → Bool → List Cert → Except TLSConfigError (List Cert)
  | [], false, pool => .ok pool
  | [], true, _ => .error .unparsableSection
  | b :: rest, trailing, pool =>
    if b.type = "CERTIFICATE" then
      match parse b.bytes with
      | some c => addCACerts parse rest trailing (pool ++ [c])
      | none => .error .certParse
    else .error (.unexpectedBlockType b.type)

/-- The certificates a bundle's block list yields under the
`x509.ParseCertificate` oracle. -/
def parsedCerts (parse : List Nat → Option Cert) (bs : List PemBlock) : List Cert :=
  bs.filterMap (fun b => parse b.bytes)

/-- The body of Go method `(t *TLS) Config()` from config.go for a
non-nil receiver, transcribed line by line. `kp` is the
`tls.X509KeyPair` oracle, `parse` the `x509.ParseCertificate` oracle.
The guard rejects a positive client-auth level with an empty client-CA
string; then the key pair is parsed, then the client-CA bundle, and a
non-empty bundle that contributed zero certificates is rejected. -/
def TLS.configFor (kp : String → String → Option KeyPair)
    (parse : List Nat → Option Cert) (t : TLS) :
    Except TLSConfigError (Option TLSServerConfig) :=
  if t.ClientCAs.isEmptyStr = true ∧ t.ClientAuth > 0 then
    .error .clientAuthWithoutCAs
  else
    match kp t.Certificate t.Key with
    | none => .error .keyPairParse
    | some cert =>
      match addCACerts parse t.ClientCAs.blocks t.ClientCAs.trailing [] with
      | .error e => .error e
      | .ok pool =>
        if t.ClientCAs.isEmptyStr = false ∧ pool.length = 0 then
          .error .noCertsParsed
        else
          .ok (some { NextProtos := t.ApplicationProtocols
                      ClientCAs := pool
                      ClientAuth := t.ClientAuth
                      Certificates := [cert] })

/-- Go method `(t *TLS) Config()` from config.go: a nil receiver
yields no configuration, otherwise `TLS.configFor` runs. -/
def TLS.Config (kp : String → String → Option KeyPair)
    (parse : List Nat → Option Cert) (t : Option TLS) :
    Except TLSConfigError (Option TLSServerConfig) :=
  match t with
  | none => .ok none
  | some t => TLS.configFor kp parse t

/-! ## Properties of the CA-parsing loop -/

lemma addCACerts_cons (parse : List Nat → Option Cert) (b : PemBlock)
    (rest : List PemBlock) (trailing : Bool) (pool : List Cert) :
    addCACerts parse (b :: rest) trailing pool =
      if b.type = "CERTIFICATE" then
        match parse b.bytes with
        | some c => addCACerts parse rest trailing (pool ++ [c])
        | none => .error .certParse
      else .error (.unexpectedBlockType b.type) := rfl

lemma addCACerts_ok_iff (parse : List Nat → Option Cert)
    (bs : List PemBlock) (trailing : Bool) (acc pool : List Cert) :
    addCACerts parse bs trailing acc = .ok pool ↔
      ((∀ b ∈ bs, b.type = "CERTIFICATE" ∧ (parse b.bytes).isSome) ∧
        trailing = false ∧ pool = acc ++ parsedCerts parse bs) := by
  induction bs generalizing acc with
  | nil =>
    cases trailing with
    | false =>
      simp only [addCACerts, parsedCerts, List.filterMap_nil, List.append_nil,
        List.not_mem_nil, false_implies, implies_true, true_and,
        eq_self_iff_true, Except.ok.injEq]
      exact eq_comm
    | true =>
      simp [addCACerts]
  | cons b rest ih =>
    rw [addCACerts_cons]
    by_cases hty : b.type = "CERTIFICATE"
    · rw [if_pos hty]
      cases hp : parse b.bytes with
      | none =>
        simp [parsedCerts, hp, hty]
      | some c =>
        rw [ih]
        simp [parsedCerts, hp, hty, List.filterMap_cons, and_assoc]
    · rw [if_neg hty]
      simp [hty]

/-! ## Forwarder (harald.go) -/

/-- Go struct `Forwarder` from harald.go: the embedded `ForwardRule`,
the name, the nilable listener handle, the compiled TLS configuration
and the effective dial timeout. The logger field carries no state that
matters here and is omitted. -/
structure Forwarder where
  rule : ForwardRule
  name : String
  listener : Option Listener
  tlsConf : Option TLSServerConfig
  timeout : Duration
deriving DecidableEq

/-- Go method `(r ForwardRule) NewForwarder(name, defaultDialTimeout)`
from config.go, transcribed line by line: the forwarder starts with
`timeout` set to the default, the TLS configuration is built from the
rule, and when the rule carries a non-zero `DialTimeout` the code
assigns it to `f.DialTimeout` - the promoted field of the embedded
rule copied from `r`, not the `timeout` field that the connection
handler dials with. -/
def ForwardRule.NewForwarder (kp : String → String → Option KeyPair)
    (parse : List Nat → Option Cert) (r : ForwardRule) (name : String)
    (defaultDialTimeout : Duration) : Except TLSConfigError Forwarder :=
  let f : Forwarder :=
    { rule := r, name := name, listener := none, tlsConf := none,
      timeout := defaultDialTimeout }
  match TLS.Config kp parse r.TLS with
  | .error e => .error e
  | .ok tc =>
    let f := { f with tlsConf := tc }
    let f :=
      if r.DialTimeout ≠ 0 then
        { f with rule := { f.rule with DialTimeout := r.DialTimeout } }
      else f
    .ok f

/-- Go method `(f *Forwarder) Start()` from harald.go: a present
listener handle is a no-op success; otherwise `net.Listen` (the
`listen` oracle) is called on the rule's listen endpoint, a bind
failure is returned with the state unchanged, and on success the new
handle is stored. The accept loop it launches is independent and not
part of the state transition. -/
def Forwarder.Start (listen : NetConf → Except String Listener)
    (f : Forwarder) : Except String Forwarder :=
  match f.listener with
  | some _ => .ok f
  | none =>
    match listen f.rule.Listen with
    | .error e => .error e
    | .ok l => .ok { f with listener := some l }

/-- Go method `(f *Forwarder) Stop()` from harald.go, as a sequential
state transition: absent handle is a no-op; otherwise the handle is
copied, the stored handle is cleared, the copy is re-checked for nil
and closed. The boolean reports whether `Close` was invoked. -/
def Forwarder.Stop (f : Forwarder) : Forwarder × Bool :=
  match f.listener with
  | none => (f, false)
  | some _ =>
    let l := f.listener
    let f' := { f with listener := none }
    match l with
    | none => (f', false)
    | some _ => (f', true)

/-! ## Connection handler (harald.go, `Forwarder.handle`) -/

/-- The two sockets a connection handler touches. -/
inductive Side
  | inbound
  | upstream
deriving DecidableEq

/-- The observable actions of `Forwarder.handle`, in program order. -/
inductive HandleEvent
  /-- The upstream dial `net.DialTimeout(f.Connect.Network, f.Connect.Address, f.timeout)`. -/
  | dialAttempt (network address : String) (timeout : Duration)
  /-- A `tls.Server(...)` layer placed over the given socket. -/
  | tlsWrap (s : Side)
  /-- the two relay copy operations are started -/
  | relay
  /-- A `Close()` of the given socket (the deferred closes). -/
  | closeConn (s : Side)
deriving DecidableEq

/-- Go method `(f *Forwarder) handle(source)` from harald.go as the
trace of its actions, given whether the upstream dial succeeds: the
deferred close of the inbound socket is registered first; the upstream
endpoint is dialled once with `f.timeout`; on failure the handler
returns (running the deferred inbound close); on success the deferred
upstream close is registered, then - only now - the inbound socket is
wrapped in server-side TLS when a TLS configuration is present, the
relay is started, and on exit the deferred closes run in LIFO order. -/
def Forwarder.handle (dialOk : Bool) (f : Forwarder) : List HandleEvent :=
  let dial := HandleEvent.dialAttempt f.rule.Connect.Network
    f.rule.Connect.Address f.timeout
  if dialOk then
    [dial]
      ++ (if f.tlsConf.isSome then [HandleEvent.tlsWrap .inbound] else [])
      ++ [HandleEvent.relay, HandleEvent.closeConn .upstream,
          HandleEvent.closeConn .inbound]
  else
    [dial, HandleEvent.closeConn .inbound]

/-! ## Forwarders collection and control loop (harald.go) -/

/-- Go `Forwarders.Start`: start every forwarder; an error on one is
logged and does not affect the others (its state is left unchanged). -/
def Forwarders.Start (listen : NetConf → Except String Listener)
    (fs : List Forwarder) : List Forwarder :=
  fs.map (fun f =>
    match f.Start listen with
    | .ok f' => f'
    | .error _ => f)

/-- Go `Forwarders.Stop`: stop every forwarder. -/
def Forwarders.Stop (fs : List Forwarder) : List Forwarder :=
  fs.map (fun f => (f.Stop).1)

/-- The control signals `Harald` reacts to. -/
inductive Sig
  | sigterm
  | sigusr1
  | sigusr2
  | unknown
deriving DecidableEq

/-- The signal dispatch loop of `Harald` (harald.go): SIGTERM stops all
forwarders and terminates the loop, SIGUSR1 starts all, SIGUSR2 stops
all, anything else is ignored; an exhausted channel ends the loop. The
result is the final forwarder state. -/
def controlLoop (listen : NetConf → Except String Listener) :
    List Forwarder → List Sig → List Forwarder
  | fs, [] => fs
  | fs, s :: rest =>
    match s with
    | .sigterm => Forwarders.Stop fs
    | .sigusr1 => controlLoop listen (Forwarders.Start listen fs) rest
    | .sigusr2 => controlLoop listen (Forwarders.Stop fs) rest
    | .unknown => controlLoop listen fs rest

/-- The error cases of `Harald` (harald.go). -/
inductive HaraldError
  /-- The "harald:" error wrapping a `NewForwarder` failure. -/
  | newForwarder (name : String) (e : TLSConfigError)
  /-- The "harald: no forwarders configured" error. -/
  | noForwarders
deriving DecidableEq

/-- The forwarder construction loop at the top of `Harald`: one
forwarder per rule, aborting on the first construction error. -/
def buildForwarders (kp : String → String → Option KeyPair)
    (parse : List Nat → Option Cert) (d : Duration) :
    List (String × ForwardRule) → Except HaraldError (List Forwarder)
  | [] => .ok []
  | (name, r) :: rest =>
    match r.NewForwarder kp parse name d with
    | .error e => .error (.newForwarder name e)
    | .ok f =>
      match buildForwarders kp parse d rest with
      | .error e => .error e
      | .ok fs => .ok (f :: fs)

/-- Go function `Harald(c, signals)` from harald.go: build one
forwarder per rule (the default dial timeout is `c.DialTimeout`'s
duration), fail when none are configured, start all listeners when
`EnableListeners` is set, then run the signal loop. The result is the
final forwarder state after the loop. -/
def Harald (kp : String → String → Option KeyPair)
    (parse : List Nat → Option Cert)
    (listen : NetConf → Except String Listener)
    (c : Config) (signals : List Sig) :
    Except HaraldError (List Forwarder) :=
  match buildForwarders kp parse (Duration.Duration (some c.DialTimeout)) c.Rules with
  | .error e => .error e
  | .ok fs =>
    if fs.length = 0 then .error .noForwarders
    else
      let fs := if c.EnableListeners then Forwarders.Start listen fs else fs
      .ok (controlLoop listen fs signals)

/-! ## Helper lemmas on the TLS Config Builder -/

/-- Whether an `Except` result is an error. -/
def isErr {ε α : Type} (e : Except ε α) : Bool :=
  match e with
  | .error _ => true
  | .ok _ => false

lemma isErr_false_iff {ε α : Type} (e : Except ε α) :
    isErr e = false ↔ ∃ a, e = .ok a := by
  cases e <;> simp [isErr]

lemma addCACerts_ne_noCerts (parse : List Nat → Option Cert)
    (bs : List PemBlock) (trailing : Bool) (acc : List Cert) :
    addCACerts parse bs trailing acc ≠ .error .noCertsParsed := by
  induction bs generalizing acc with
  | nil =>
    cases trailing <;> simp [addCACerts]
  | cons b rest ih =>
    rw [addCACerts_cons]
    by_cases hty : b.type = "CERTIFICATE"
    · rw [if_pos hty]
      cases hp : parse b.bytes with
      | none => simp
      | some c => exact ih _
    · rw [if_neg hty]
      simp

lemma parsedCerts_length (parse : List Nat → Option Cert)
    (bs : List PemBlock)
    (h : ∀ b ∈ bs, (parse b.bytes).isSome = true) :
    (parsedCerts parse bs).length = bs.length := by
  induction bs with
  | nil => rfl
  | cons b rest ih =>
    have hb := h b (List.mem_cons_self b rest)
    obtain ⟨c, hc⟩ := Option.isSome_iff_exists.mp hb
    simp only [parsedCerts, List.filterMap_cons, hc]
    have := ih (fun x hx => h x (List.mem_cons_of_mem b hx))
    simp only [parsedCerts] at this
    simp [this]

/-- Main characterization of `TLS.Config` on a present receiver: the
`noCertsParsed` branch is never taken, a success always carries a
configuration, and on success all bundle blocks were certificate-typed
and parsed, there were no trailing bytes, and the configuration copies
the ALPN list and client-auth level verbatim with the parsed
certificates as pool; an empty bundle forces a non-positive client-auth
level and a non-empty bundle forces a non-empty pool. -/
lemma TLSConfig_main (kp : String → String → Option KeyPair)
    (parse : List Nat → Option Cert) (t : TLS) :
    TLS.Config kp parse (some t) ≠ .error .noCertsParsed ∧
    (∀ v, TLS.Config kp parse (some t) = .ok v → v.isSome = true) ∧
    (∀ conf, TLS.Config kp parse (some t) = .ok (some conf) →
      (∀ b ∈ t.ClientCAs.blocks,
        b.type = "CERTIFICATE" ∧ (parse b.bytes).isSome = true) ∧
      t.ClientCAs.trailing = false ∧
      conf.NextProtos = t.ApplicationProtocols ∧
      conf.ClientAuth = t.ClientAuth ∧
      conf.ClientCAs = parsedCerts parse t.ClientCAs.blocks ∧
      (t.ClientCAs.isEmptyStr = true → t.ClientAuth ≤ 0) ∧
      (t.ClientCAs.isEmptyStr = false → 1 ≤ conf.ClientCAs.length)) := by
  by_cases hg : t.ClientCAs.isEmptyStr = true ∧ t.ClientAuth > 0
  · have hres : TLS.Config kp parse (some t) = .error .clientAuthWithoutCAs := by
      show TLS.configFor kp parse t = _
      unfold TLS.configFor
      rw [if_pos hg]
    refine ⟨by rw [hres]; simp, ?_, ?_⟩
    · intro v hv
      rw [hres] at hv
      cases hv
    · intro conf hc
      rw [hres] at hc
      cases hc
  · cases hk : kp t.Certificate t.Key with
    | none =>
      have hres : TLS.Config kp parse (some t) = .error .keyPairParse := by
        show TLS.configFor kp parse t = _
        unfold TLS.configFor
        rw [if_neg hg, hk]
      refine ⟨by rw [hres]; simp, ?_, ?_⟩
      · intro v hv
        rw [hres] at hv
        cases hv
      · intro conf hc
        rw [hres] at hc
        cases hc
    | some cert =>
      cases ha : addCACerts parse t.ClientCAs.blocks t.ClientCAs.trailing [] with
      | error e =>
        have hres : TLS.Config kp parse (some t) = .error e := by
          show TLS.configFor kp parse t = _
          unfold TLS.configFor
          rw [if_neg hg, hk, ha]
        have hne : e ≠ .noCertsParsed := by
          intro h
          rw [h] at ha
          exact addCACerts_ne_noCerts parse _ _ _ ha
        refine ⟨by rw [hres]; simpa using hne, ?_, ?_⟩
        · intro v hv
          rw [hres] at hv
          cases hv
        · intro conf hc
          rw [hres] at hc
          cases hc
      | ok pool =>
        obtain ⟨hall, htr, hpool⟩ := (addCACerts_ok_iff parse _ _ [] pool).mp ha
        rw [List.nil_append] at hpool
        by_cases h2 : t.ClientCAs.isEmptyStr = false ∧ pool.length = 0
        · exfalso
          have hblocks : t.ClientCAs.blocks ≠ [] := by
            intro hb
            have := h2.1
            rw [CABundle.isEmptyStr, hb, htr] at this
            simp at this
          have hlen : pool.length = t.ClientCAs.blocks.length := by
            rw [hpool]
            exact parsedCerts_length parse _ (fun b hb => (hall b hb).2)
          have hz : t.ClientCAs.blocks.length = 0 := by
            rw [← hlen]
            exact h2.2
          exact absurd (List.length_eq_zero.mp hz) hblocks
        · have hres : TLS.Config kp parse (some t) =
              .ok (some { NextProtos := t.ApplicationProtocols
                          ClientCAs := pool
                          ClientAuth := t.ClientAuth
                          Certificates := [cert] }) := by
            show TLS.configFor kp parse t = _
            unfold TLS.configFor
            simp only [if_neg hg, hk, ha, if_neg h2]
          refine ⟨by rw [hres]; simp, ?_, ?_⟩
          · intro v hv
            rw [hres] at hv
            injection hv with hv
            rw [← hv]
            rfl
          · intro conf hc
            rw [hres] at hc
            rw [Except.ok.injEq, Option.some.injEq] at hc
            subst hc
            refine ⟨hall, htr, rfl, rfl, hpool, ?_, ?_⟩
            · intro hemp
              by_contra hpos
              exact hg ⟨hemp, not_le.mp hpos⟩
            · intro hne
              show 1 ≤ pool.length
              have : ¬pool.length = 0 := fun hz => h2 ⟨hne, hz⟩
              omega

/-! ## Concrete inputs used by witnesses and counterexamples -/

/-- A `tls.X509KeyPair` oracle that accepts every certificate/key pair. -/
def kpEx : String → String → Option KeyPair :=
  fun c k => some { certPem := c, keyPem := k }

/-- An `x509.ParseCertificate` oracle that parses every block payload. -/
def parseEx : List Nat → Option Cert :=
  fun bs => some { der := bs }

/-- A `tls.X509KeyPair` oracle that rejects every input. -/
def kpNoneEx : String → String → Option KeyPair := fun _ _ => none

/-- An `x509.ParseCertificate` oracle that rejects every input. -/
def parseNoneEx : List Nat → Option Cert := fun _ => none

/-- One valid certificate-typed PEM block. -/
def caBlockEx : PemBlock := { type := "CERTIFICATE", bytes := [1, 2, 3] }

/-- A TLS input with a one-certificate client-CA bundle and the
client-auth level left at its zero default (`NoClientCert`). -/
def tEx : TLS :=
  { Certificate := "server-cert"
    Key := "server-key"
    ClientCAs := { blocks := [caBlockEx], trailing := false }
    ApplicationProtocols := []
    ClientAuth := 0 }

/-- The configuration `TLS.Config` builds from `tEx` under `kpEx` and
`parseEx`. -/
def confEx : TLSServerConfig :=
  { NextProtos := []
    ClientCAs := [{ der := [1, 2, 3] }]
    ClientAuth := 0
    Certificates := [{ certPem := "server-cert", keyPem := "server-key" }] }

/-- A TLS input with an empty client-CA bundle but a positive
client-auth requirement. -/
def t9Ex : TLS :=
  { Certificate := "server-cert"
    Key := "server-key"
    ClientCAs := { blocks := [], trailing := false }
    ApplicationProtocols := []
    ClientAuth := 4 }

/-- A TLS input whose client-CA bundle has one block followed by
undecodable trailing bytes. -/
def tBadEx : TLS :=
  { Certificate := "server-cert"
    Key := "server-key"
    ClientCAs := { blocks := [caBlockEx], trailing := true }
    ApplicationProtocols := []
    ClientAuth := 0 }

/-! ## Claim C1 -/

/-- Claim C1 counterexample: a TLS input whose client-CA bundle yields
one parsed certificate but whose configured client-auth level is the
zero default builds successfully into a configuration that does NOT
require client-certificate authentication (`ClientAuth` stays 0,
`NoClientCert`), contradicting the claim that a non-empty parsed bundle
forces required-and-verified client authentication. -/
theorem c1_counterexample :
    TLS.Config kpEx parseEx (some tEx) = .ok (some confEx) ∧
    confEx.ClientCAs.length = 1 ∧
    confEx.ClientAuth = 0 ∧
    confEx.ClientAuth ≠ RequireAndVerifyClientCert := by
  refine ⟨?_, rfl, rfl, by decide⟩
  rfl

/-- Claim C1 (amended): the builder copies the configured client-auth
level verbatim into the returned configuration; when the bundle is
empty, a successful configuration's client-auth level is non-positive
(so client certificates are not required), and when the bundle is
non-empty a successful configuration's trust pool holds at least one
parsed certificate, which is the pool client certificates are verified
against at the configured level. -/
theorem c1_client_auth_amended (kp : String → String → Option KeyPair)
    (parse : List Nat → Option Cert) (t : TLS) (conf : TLSServerConfig)
    (h : TLS.Config kp parse (some t) = .ok (some conf)) :
    conf.ClientAuth = t.ClientAuth ∧
    (t.ClientCAs.isEmptyStr = true → conf.ClientAuth ≤ 0) ∧
    (t.ClientCAs.isEmptyStr = false →
      1 ≤ conf.ClientCAs.length ∧
      conf.ClientCAs = parsedCerts parse t.ClientCAs.blocks) := by
  obtain ⟨-, -, h3⟩ := TLSConfig_main kp parse t
  obtain ⟨-, -, -, hauth, hpool, hemp, hne⟩ := h3 conf h
  exact ⟨hauth, fun he => hauth ▸ hemp he, fun hn => ⟨hne hn, hpool⟩⟩

/-- Claim C1 witness: the amended statement evaluated at `tEx`. -/
theorem c1_client_auth_amended_witness :
    confEx.ClientAuth = tEx.ClientAuth ∧
    (tEx.ClientCAs.isEmptyStr = true → confEx.ClientAuth ≤ 0) ∧
    (tEx.ClientCAs.isEmptyStr = false →
      1 ≤ confEx.ClientCAs.length ∧
      confEx.ClientCAs = parsedCerts parseEx tEx.ClientCAs.blocks) :=
  c1_client_auth_amended kpEx parseEx tEx confEx (by rfl)

/-! ## Claim C9 -/

/-- Claim C9: a positive explicit client-auth requirement combined with
an empty client-CA bundle string makes the builder fail with the
dedicated error, for every certificate/key and certificate-parsing
oracle - so no certificate or key parsing is attempted. -/
theorem c9_client_auth_requires_cas (kp : String → String → Option KeyPair)
    (parse : List Nat → Option Cert) (t : TLS)
    (he : t.ClientCAs.isEmptyStr = true) (ha : t.ClientAuth > 0) :
    TLS.Config kp parse (some t) = .error .clientAuthWithoutCAs := by
  show TLS.configFor kp parse t = _
  unfold TLS.configFor
  rw [if_pos ⟨he, ha⟩]

/-- Claim C9 witness: evaluated at `t9Ex` under oracles that reject
every input, so the error cannot come from parsing. -/
theorem c9_client_auth_requires_cas_witness :
    TLS.Config kpNoneEx parseNoneEx (some t9Ex) = .error .clientAuthWithoutCAs :=
  c9_client_auth_requires_cas kpNoneEx parseNoneEx t9Ex rfl (by decide)

/-! ## Claim C10 -/

/-- Claim C10: `Duration()` on a nil `*Duration` returns the zero
duration, and on a present value returns exactly the underlying
duration. -/
theorem c10_duration_nil_zero :
    Duration.Duration none = 0 ∧ ∀ d : Duration, Duration.Duration (some d) = d :=
  ⟨rfl, fun _ => rfl⟩

/-! ## Claim C8 -/

/-- Claim C8: for a non-empty client-CA bundle the builder either
errors or returns a configuration whose trust pool holds at least one
certificate, and on no input whatsoever is the final "unable to parse
provided client CAs" (`noCertsParsed`) error returned - that branch is
unreachable. -/
theorem c8_no_certs_branch_unreachable (kp : String → String → Option KeyPair)
    (parse : List Nat → Option Cert) (t : TLS) :
    (t.ClientCAs.isEmptyStr = false →
      isErr (TLS.Config kp parse (some t)) = true ∨
      ∃ conf, TLS.Config kp parse (some t) = .ok (some conf) ∧
        1 ≤ conf.ClientCAs.length) ∧
    (∀ u : Option TLS, TLS.Config kp parse u ≠ .error .noCertsParsed) := by
  obtain ⟨h1, h2, h3⟩ := TLSConfig_main kp parse t
  constructor
  · intro hne
    cases hres : TLS.Config kp parse (some t) with
    | error e =>
      left
      rfl
    | ok v =>
      right
      have hv := h2 v hres
      obtain ⟨conf, hconf⟩ := Option.isSome_iff_exists.mp hv
      subst hconf
      exact ⟨conf, rfl, (h3 conf hres).2.2.2.2.2.2 hne⟩
  · intro u
    cases u with
    | none =>
      intro h
      cases h
    | some u' => exact (TLSConfig_main kp parse u').1

/-- Claim C8 witness: evaluated at `tEx`, whose bundle is non-empty. -/
theorem c8_no_certs_branch_unreachable_witness :
    (isErr (TLS.Config kpEx parseEx (some tEx)) = true ∨
      ∃ conf, TLS.Config kpEx parseEx (some tEx) = .ok (some conf) ∧
        1 ≤ conf.ClientCAs.length) ∧
    TLS.Config kpEx parseEx (some tEx) ≠ .error .noCertsParsed :=
  ⟨(c8_no_certs_branch_unreachable kpEx parseEx tEx).1 rfl,
    (c8_no_certs_branch_unreachable kpEx parseEx tEx).2 (some tEx)⟩

/-! ## Claim C6 -/

/-- Claim C6: for a non-empty client-CA bundle, trailing undecodable
bytes, a block whose type is not CERTIFICATE, or a bundle yielding zero
parsed certificates each make the builder fail; and on success the
trust pool is exactly the list of successfully parsed certificates. -/
theorem c6_client_ca_errors (kp : String → String → Option KeyPair)
    (parse : List Nat → Option Cert) (t : TLS)
    (hne : t.ClientCAs.isEmptyStr = false) :
    (t.ClientCAs.trailing = true → isErr (TLS.Config kp parse (some t)) = true) ∧
    ((∃ b ∈ t.ClientCAs.blocks, b.type ≠ "CERTIFICATE") →
      isErr (TLS.Config kp parse (some t)) = true) ∧
    (parsedCerts parse t.ClientCAs.blocks = [] →
      isErr (TLS.Config kp parse (some t)) = true) ∧
    (∀ conf, TLS.Config kp parse (some t) = .ok (some conf) →
      conf.ClientCAs = parsedCerts parse t.ClientCAs.blocks) := by
  obtain ⟨h1, h2, h3⟩ := TLSConfig_main kp parse t
  have hok : isErr (TLS.Config kp parse (some t)) = false →
      ∃ conf, TLS.Config kp parse (some t) = .ok (some conf) := by
    intro hf
    obtain ⟨v, hv⟩ := (isErr_false_iff _).mp hf
    have := h2 v hv
    obtain ⟨conf, hconf⟩ := Option.isSome_iff_exists.mp this
    subst hconf
    exact ⟨conf, hv⟩
  refine ⟨?_, ?_, ?_, fun conf hc => (h3 conf hc).2.2.2.2.1⟩
  · intro htr
    cases herr : isErr (TLS.Config kp parse (some t)) with
    | true => rfl
    | false =>
      obtain ⟨conf, hc⟩ := hok herr
      rw [(h3 conf hc).2.1] at htr
      cases htr
  · intro hbad
    cases herr : isErr (TLS.Config kp parse (some t)) with
    | true => rfl
    | false =>
      obtain ⟨conf, hc⟩ := hok herr
      obtain ⟨b, hb, hbt⟩ := hbad
      exact absurd ((h3 conf hc).1 b hb).1 hbt
  · intro hz
    cases herr : isErr (TLS.Config kp parse (some t)) with
    | true => rfl
    | false =>
      obtain ⟨conf, hc⟩ := hok herr
      have hlen := (h3 conf hc).2.2.2.2.2.2 hne
      rw [(h3 conf hc).2.2.2.2.1, hz] at hlen
      cases hlen
  
/-- Claim C6 witness: at `tBadEx` the trailing undecodable bytes make
the builder fail. -/
theorem c6_client_ca_errors_witness :
    isErr (TLS.Config kpEx parseEx (some tBadEx)) = true :=
  (c6_client_ca_errors kpEx parseEx tBadEx rfl).1 rfl

/-! ## Forwarder helper lemmas -/

/-- Whether a handler event is the upstream dial. -/
def HandleEvent.isDial : HandleEvent → Bool
  | .dialAttempt _ _ _ => true
  | _ => false

lemma Forwarder.Start_some (listen : NetConf → Except String Listener)
    (f : Forwarder) (l : Listener) (hl : f.listener = some l) :
    Forwarder.Start listen f = .ok f := by
  unfold Forwarder.Start
  rw [hl]

lemma Forwarder.Start_none (listen : NetConf → Except String Listener)
    (f : Forwarder) (hl : f.listener = none) :
    Forwarder.Start listen f =
      match listen f.rule.Listen with
      | .error e => .error e
      | .ok l => .ok { f with listener := some l } := by
  unfold Forwarder.Start
  rw [hl]

lemma buildForwarders_length (kp : String → String → Option KeyPair)
    (parse : List Nat → Option Cert) (d : Duration)
    (rules : List (String × ForwardRule)) (fs : List Forwarder)
    (h : buildForwarders kp parse d rules = .ok fs) :
    fs.length = rules.length := by
  induction rules generalizing fs with
  | nil =>
    unfold buildForwarders at h
    injection h with h
    rw [← h]
    rfl
  | cons nr rest ih =>
    obtain ⟨name, r⟩ := nr
    unfold buildForwarders at h
    cases hf : r.NewForwarder kp parse name d with
    | error e =>
      rw [hf] at h
      cases h
    | ok f =>
      rw [hf] at h
      cases hrest : buildForwarders kp parse d rest with
      | error e =>
        rw [hrest] at h
        cases h
      | ok fs' =>
        rw [hrest] at h
        injection h with h
        rw [← h]
        simp [ih fs' hrest]

/-! ## Concrete forwarder inputs -/

/-- A rule with a 5ms per-rule dial-timeout override and no TLS. -/
def ruleEx : ForwardRule :=
  { DialTimeout := 5000000
    Listen := { Network := "tcp", Address := ":60001" }
    Connect := { Network := "tcp", Address := "localhost:8080" }
    TLS := none }

/-- The forwarder `NewForwarder` builds from `ruleEx` with a 10ms
default dial timeout. -/
def fEx : Forwarder :=
  { rule := ruleEx
    name := "http"
    listener := none
    tlsConf := none
    timeout := 10000000 }

/-- The forwarder `fEx` with a TLS server configuration attached. -/
def fTlsEx : Forwarder := { fEx with tlsConf := some confEx }

/-- The forwarder `fEx` in the started state (listener handle present). -/
def fStartedEx : Forwarder := { fEx with listener := some 7 }

/-- A `net.Listen` oracle that always binds handle 0. -/
def listenEx : NetConf → Except String Listener := fun _ => .ok 0

/-- A configuration with exactly one rule. -/
def cEx : Config :=
  { Version := 2, LogLevel := 0, DialTimeout := 10000000,
    EnableListeners := false, Rules := [("http", ruleEx)] }

/-- A configuration with zero rules. -/
def cEmptyEx : Config :=
  { Version := 2, LogLevel := 0, DialTimeout := 10000000,
    EnableListeners := false, Rules := [] }

/-! ## Claim C2 -/

/-- Claim C2 failing input, evaluated: `ruleEx` carries a non-zero 5ms
dial-timeout override, yet the forwarder built with a 10ms default
keeps `timeout` at the default (the override assignment in
`NewForwarder` writes the embedded rule's already-equal `DialTimeout`
field instead), and the connection handler dials upstream with the 10ms
default rather than the 5ms override. -/
theorem c2_dial_timeout_override_ignored :
    ruleEx.DialTimeout = 5000000 ∧
    ruleEx.DialTimeout ≠ 0 ∧
    ForwardRule.NewForwarder kpEx parseEx ruleEx "http" 10000000 = .ok fEx ∧
    fEx.timeout = 10000000 ∧
    (Forwarder.handle true fEx).head? =
      some (.dialAttempt "tcp" "localhost:8080" 10000000) ∧
    (5000000 : Duration) ≠ 10000000 := by
  refine ⟨rfl, by decide, ?_, rfl, rfl, by decide⟩
  rfl

/-! ## Claim C3 -/

/-- Claim C3: the handler's trace starts with the single upstream dial
attempt; a TLS wrap never targets the upstream socket; the inbound
socket is wrapped exactly when the dial succeeded and TLS material is
configured (so the wrap always comes after a successful dial); a failed
dial yields exactly the dial attempt followed by the inbound close -
no TLS layer and no retry; and every trace contains exactly one dial
attempt. -/
theorem c3_tls_wrap_inbound_after_dial (f : Forwarder) (dialOk : Bool) :
    (Forwarder.handle dialOk f).head? =
      some (.dialAttempt f.rule.Connect.Network f.rule.Connect.Address f.timeout) ∧
    HandleEvent.tlsWrap .upstream ∉ Forwarder.handle dialOk f ∧
    (HandleEvent.tlsWrap .inbound ∈ Forwarder.handle dialOk f ↔
      dialOk = true ∧ f.tlsConf.isSome = true) ∧
    (dialOk = false →
      Forwarder.handle dialOk f =
        [.dialAttempt f.rule.Connect.Network f.rule.Connect.Address f.timeout,
         .closeConn .inbound]) ∧
    (Forwarder.handle dialOk f).countP (fun e => e.isDial) = 1 := by
  cases dialOk with
  | false =>
    simp [Forwarder.handle, List.countP_cons, HandleEvent.isDial]
  | true =>
    cases htls : f.tlsConf.isSome with
    | false =>
      simp [Forwarder.handle, htls, List.countP_cons, HandleEvent.isDial]
    | true =>
      simp [Forwarder.handle, htls, List.countP_cons, HandleEvent.isDial]

/-- Claim C3 witness: the inbound-wrap, no-upstream-wrap and
dial-failure parts evaluated at `fTlsEx`. -/
theorem c3_tls_wrap_inbound_after_dial_witness :
    HandleEvent.tlsWrap .upstream ∉ Forwarder.handle true fTlsEx ∧
    HandleEvent.tlsWrap .inbound ∈ Forwarder.handle true fTlsEx ∧
    Forwarder.handle false fTlsEx =
      [.dialAttempt "tcp" "localhost:8080" 10000000, .closeConn .inbound] :=
  ⟨(c3_tls_wrap_inbound_after_dial fTlsEx true).2.1,
    ((c3_tls_wrap_inbound_after_dial fTlsEx true).2.2.1).mpr ⟨rfl, rfl⟩,
    (c3_tls_wrap_inbound_after_dial fTlsEx false).2.2.2.1 rfl⟩

/-! ## Claim C4 -/

/-- Claim C4: `Start()` on a forwarder whose listener handle is present
succeeds and returns the state completely unchanged, independently of
the bind oracle (so no second listener is bound); and whenever a
`Start()` succeeds, the resulting state has a present handle and a
second `Start()` - under any bind oracle - succeeds and changes
nothing, so two consecutive starts leave exactly the one active
listener. -/
theorem c4_start_idempotent (listen listen2 : NetConf → Except String Listener)
    (f f1 : Forwarder) :
    (f.listener.isSome = true → Forwarder.Start listen f = .ok f) ∧
    (Forwarder.Start listen f = .ok f1 →
      f1.listener.isSome = true ∧ Forwarder.Start listen2 f1 = .ok f1) := by
  constructor
  · intro h
    obtain ⟨l, hl⟩ := Option.isSome_iff_exists.mp h
    exact Forwarder.Start_some listen f l hl
  · intro h
    cases hl : f.listener with
    | some l =>
      rw [Forwarder.Start_some listen f l hl] at h
      injection h with h
      subst h
      exact ⟨by rw [hl]; rfl, Forwarder.Start_some listen2 f l hl⟩
    | none =>
      rw [Forwarder.Start_none listen f hl] at h
      cases hb : listen f.rule.Listen with
      | error e =>
        rw [hb] at h
        cases h
      | ok l =>
        rw [hb] at h
        injection h with h
        subst h
        exact ⟨rfl, Forwarder.Start_some listen2 _ l rfl⟩

/-- Claim C4 witness: two consecutive starts on the started forwarder
`fStartedEx` both succeed and leave the state unchanged. -/
theorem c4_start_idempotent_witness :
    Forwarder.Start listenEx fStartedEx = .ok fStartedEx ∧
    fStartedEx.listener.isSome = true ∧
    Forwarder.Start listenEx fStartedEx = .ok fStartedEx := by
  have h := (c4_start_idempotent listenEx listenEx fStartedEx fStartedEx).1 rfl
  exact ⟨h, ((c4_start_idempotent listenEx listenEx fStartedEx fStartedEx).2 h).1,
    ((c4_start_idempotent listenEx listenEx fStartedEx fStartedEx).2 h).2⟩

/-! ## Claim C7 -/

/-- Claim C7: with zero rules `Harald` fails with the dedicated
"no forwarders configured" error for every signal stream - so before
any command is processed - and with a non-empty rule list whose
per-rule constructions all succeed, `Harald` enters the control loop
and returns its result. -/
theorem c7_startup (kp : String → String → Option KeyPair)
    (parse : List Nat → Option Cert)
    (listen : NetConf → Except String Listener)
    (c : Config) (signals : List Sig) :
    (c.Rules = [] → Harald kp parse listen c signals = .error .noForwarders) ∧
    (∀ fs, buildForwarders kp parse (Duration.Duration (some c.DialTimeout)) c.Rules = .ok fs →
      c.Rules ≠ [] →
      Harald kp parse listen c signals =
        .ok (controlLoop listen
          (if c.EnableListeners then Forwarders.Start listen fs else fs) signals)) := by
  constructor
  · intro hr
    unfold Harald
    rw [hr]
    simp [buildForwarders]
  · intro fs hb hne
    have hlen : fs.length ≠ 0 := by
      rw [buildForwarders_length kp parse _ _ _ hb]
      intro h
      exact hne (List.length_eq_zero.mp h)
    unfold Harald
    simp only [hb, if_neg hlen]

/-- Claim C7 witness: the empty configuration fails before the loop and
the one-rule configuration reaches the control loop. -/
theorem c7_startup_witness :
    Harald kpEx parseEx listenEx cEmptyEx [Sig.sigusr1] = .error .noForwarders ∧
    Harald kpEx parseEx listenEx cEx [Sig.sigusr1, Sig.sigterm] =
      .ok (controlLoop listenEx [fEx] [Sig.sigusr1, Sig.sigterm]) :=
  ⟨(c7_startup kpEx parseEx listenEx cEmptyEx [Sig.sigusr1]).1 rfl,
    (c7_startup kpEx parseEx listenEx cEx [Sig.sigusr1, Sig.sigterm]).2 [fEx]
      (by rfl) (by simp [cEx])⟩

/-! ## Concurrent `Stop()` (harald.go): two racing calls as an
interleaved state machine

Each `Stop()` call is split into its atomic accesses to the shared
`f.listener` field, following the statements of the Go source:
`check` is the initial `if f.listener == nil` read, `take` is the copy
`l := f.listener`, `clear` is the write `f.listener = nil`, and
`closeW` is the local nil re-check followed by `l.Close()` on a
non-nil copy. Two calls run concurrently; a schedule picks which call
performs its next atomic step. -/

/-- Program counter of one `Stop()` call. -/
inductive StopPC
  | check
  | take
  | clear
  | closeW
  | done
deriving DecidableEq

/-- The state of one `Stop()` call: program counter, the local copy
`l`, whether the initial check observed an absent handle, and whether
this call invoked `Close`. -/
structure StopThread where
  pc : StopPC
  l : Option Listener
  sawAbsent : Bool
  didClose : Bool
deriving DecidableEq

/-- The shared state: the forwarder's `listener` field, the list of
handles `Close` was invoked on (in order), and the two calls. -/
structure StopSys where
  shared : Option Listener
  closes : List Listener
  t0 : StopThread
  t1 : StopThread
deriving DecidableEq

/-- A call that has not started yet. -/
def initThread : StopThread :=
  { pc := .check, l := none, sawAbsent := false, didClose := false }

/-- Two `Stop()` calls about to race on a started forwarder whose
listener handle is `h`. -/
def initStop (h : Listener) : StopSys :=
  { shared := some h, closes := [], t0 := initThread, t1 := initThread }

/-- One atomic step of a single `Stop()` call: given the shared
`listener` value, returns the new thread state, the new shared value,
and the handle `Close` was invoked on, if any. Transcribed from
`Forwarder.Stop` in harald.go. -/
def stepThread (sh : Option Listener) (t : StopThread) :
    StopThread × Option Listener × Option Listener :=
  match t.pc with
  | .check =>
    match sh with
    | none => ({ t with pc := .done, sawAbsent := true }, sh, none)
    | some _ => ({ t with pc := .take }, sh, none)
  | .take => ({ t with l := sh, pc := .clear }, sh, none)
  | .clear => ({ t with pc := .closeW }, none, none)
  | .closeW =>
    match t.l with
    | none => ({ t with pc := .done }, sh, none)
    | some x => ({ t with pc := .done, didClose := true }, sh, some x)
  | .done => (t, sh, none)

/-- Step the scheduled call (`false` = first call, `true` = second). -/
def stepStop (who : Bool) (s : StopSys) : StopSys :=
  if who then
    let r := stepThread s.shared s.t1
    { shared := r.2.1, closes := s.closes ++ r.2.2.toList, t0 := s.t0, t1 := r.1 }
  else
    let r := stepThread s.shared s.t0
    { shared := r.2.1, closes := s.closes ++ r.2.2.toList, t0 := r.1, t1 := s.t1 }

/-- Run a schedule of interleaved atomic steps. -/
def runStop (sched : List Bool) (s : StopSys) : StopSys :=
  sched.foldl (fun s w => stepStop w s) s

/-- Count 1 if this call invoked `Close`, else 0. -/
def countClose (t : StopThread) : Nat := if t.didClose then 1 else 0

/-- The call holds its local copy and has not yet acted on it. -/
def midPC (t : StopThread) : Prop := t.pc = .clear ∨ t.pc = .closeW

/-- Per-call invariant: the local copy is absent or the real handle;
a call that observed an absent handle is finished without closing;
a call that closed is finished. -/
def threadOK (h : Listener) (t : StopThread) : Prop :=
  (t.l = none ∨ t.l = some h) ∧
  (t.sawAbsent = true → t.pc = .done ∧ t.didClose = false) ∧
  (t.didClose = true → t.pc = .done)

/-- Progress invariant: either the handle is still stored (and every
call past `take` copied it, and no call finished yet), or some `Close`
happened already, or the field is cleared and some call still holds
the real handle on its way to `closeW`. -/
def progressOK (h : Listener) (s : StopSys) : Prop :=
  (s.shared = some h ∧
    (midPC s.t0 → s.t0.l = some h) ∧ (midPC s.t1 → s.t1.l = some h) ∧
    s.t0.pc ≠ .done ∧ s.t1.pc ≠ .done) ∨
  s.closes ≠ [] ∨
  (s.shared = none ∧
    ((midPC s.t0 ∧ s.t0.l = some h) ∨ (midPC s.t1 ∧ s.t1.l = some h)))

/-- Full invariant of the two racing `Stop()` calls. -/
def StopInv (h : Listener) (s : StopSys) : Prop :=
  (s.shared = none ∨ s.shared = some h) ∧
  threadOK h s.t0 ∧ threadOK h s.t1 ∧
  (∀ x ∈ s.closes, x = h) ∧
  s.closes.length = countClose s.t0 + countClose s.t1 ∧
  progressOK h s

/-! ## Step equations for the racing-Stop machine -/

/-- Swap the two calls; the machine is symmetric under this swap. -/
def swapSys (s : StopSys) : StopSys :=
  { shared := s.shared, closes := s.closes, t0 := s.t1, t1 := s.t0 }

lemma stepStop_true_eq_swap (s : StopSys) :
    stepStop true s = swapSys (stepStop false (swapSys s)) := rfl

lemma stepStop_false_check_none (s : StopSys)
    (hpc : s.t0.pc = .check) (hshv : s.shared = none) :
    stepStop false s =
      { shared := none, closes := s.closes,
        t0 := { s.t0 with pc := .done, sawAbsent := true }, t1 := s.t1 } := by
  simp [stepStop, stepThread, hpc, hshv]

lemma stepStop_false_check_some (s : StopSys) (y : Listener)
    (hpc : s.t0.pc = .check) (hshv : s.shared = some y) :
    stepStop false s =
      { shared := some y, closes := s.closes,
        t0 := { s.t0 with pc := .take }, t1 := s.t1 } := by
  simp [stepStop, stepThread, hpc, hshv]

lemma stepStop_false_take (s : StopSys) (hpc : s.t0.pc = .take) :
    stepStop false s =
      { shared := s.shared, closes := s.closes,
        t0 := { s.t0 with l := s.shared, pc := .clear }, t1 := s.t1 } := by
  simp [stepStop, stepThread, hpc]

lemma stepStop_false_clear (s : StopSys) (hpc : s.t0.pc = .clear) :
    stepStop false s =
      { shared := none, closes := s.closes,
        t0 := { s.t0 with pc := .closeW }, t1 := s.t1 } := by
  simp [stepStop, stepThread, hpc]

lemma stepStop_false_closeW_none (s : StopSys)
    (hpc : s.t0.pc = .closeW) (hlv : s.t0.l = none) :
    stepStop false s =
      { shared := s.shared, closes := s.closes,
        t0 := { s.t0 with pc := .done }, t1 := s.t1 } := by
  simp [stepStop, stepThread, hpc, hlv]

lemma stepStop_false_closeW_some (s : StopSys) (x : Listener)
    (hpc : s.t0.pc = .closeW) (hlv : s.t0.l = some x) :
    stepStop false s =
      { shared := s.shared, closes := s.closes ++ [x],
        t0 := { s.t0 with pc := .done, didClose := true }, t1 := s.t1 } := by
  simp [stepStop, stepThread, hpc, hlv]

lemma stepStop_false_done (s : StopSys) (hpc : s.t0.pc = .done) :
    stepStop false s = s := by
  simp [stepStop, stepThread, hpc]

lemma StopInv_swap (h : Listener) (s : StopSys) :
    StopInv h (swapSys s) ↔ StopInv h s := by
  unfold StopInv swapSys progressOK
  constructor
  · rintro ⟨a, b, c, d, e, f⟩
    refine ⟨a, c, b, d, ?_, ?_⟩
    · have e2 : s.closes.length = countClose s.t1 + countClose s.t0 := e
      omega
    rcases f with ⟨f1, f2, f3, f4, f5⟩ | f | ⟨f1, f2⟩
    · exact Or.inl ⟨f1, f3, f2, f5, f4⟩
    · exact Or.inr (Or.inl f)
    · exact Or.inr (Or.inr ⟨f1, f2.symm⟩)
  · rintro ⟨a, b, c, d, e, f⟩
    refine ⟨a, c, b, d, ?_, ?_⟩
    · show s.closes.length = countClose s.t1 + countClose s.t0
      omega
    rcases f with ⟨f1, f2, f3, f4, f5⟩ | f | ⟨f1, f2⟩
    · exact Or.inl ⟨f1, f3, f2, f5, f4⟩
    · exact Or.inr (Or.inl f)
    · exact Or.inr (Or.inr ⟨f1, f2.symm⟩)

lemma stepStop_false_inv (h : Listener) (s : StopSys) (hinv : StopInv h s) :
    StopInv h (stepStop false s) := by
  obtain ⟨hsh, ⟨hl0, hsaw0, hdc0⟩, ⟨hl1, hsaw1, hdc1⟩, hcl, hlen, hprog⟩ := hinv
  cases hpc : s.t0.pc with
  | check =>
    have hdcf : s.t0.didClose = false := by
      cases hv : s.t0.didClose
      · rfl
      · have := hdc0 hv
        rw [hpc] at this
        cases this
    cases hshv : s.shared with
    | none =>
      rw [stepStop_false_check_none s hpc hshv]
      refine ⟨Or.inl rfl, ⟨hl0, fun _ => ⟨rfl, hdcf⟩, fun _ => rfl⟩,
        ⟨hl1, hsaw1, hdc1⟩, hcl, hlen, ?_⟩
      rcases hprog with ⟨ha, _⟩ | hb | ⟨_, hw⟩
      · rw [hshv] at ha
        cases ha
      · exact Or.inr (Or.inl hb)
      · rcases hw with ⟨hm, _⟩ | hw1
        · rcases hm with hm | hm <;> (rw [hpc] at hm; simp at hm)
        · exact Or.inr (Or.inr ⟨rfl, Or.inr hw1⟩)
    | some y =>
      have hy : y = h := by
        rcases hsh with h1 | h1
        · rw [hshv] at h1
          cases h1
        · rw [hshv] at h1
          injection h1
      subst hy
      rw [stepStop_false_check_some s y hpc hshv]
      refine ⟨Or.inr rfl,
        ⟨hl0, ?_, ?_⟩, ⟨hl1, hsaw1, hdc1⟩, hcl, hlen, ?_⟩
      · intro hv
        exfalso
        have := (hsaw0 hv).1
        rw [hpc] at this
        cases this
      · intro hv
        exfalso
        have := hdc0 hv
        rw [hpc] at this
        cases this
      · rcases hprog with ⟨ha, hm0, hm1, hd0', hd1'⟩ | hb | ⟨hcn, _⟩
        · refine Or.inl ⟨rfl, ?_, hm1, by simp, hd1'⟩
          intro hm
          rcases hm with hm | hm <;> simp at hm
        · exact Or.inr (Or.inl hb)
        · rw [hshv] at hcn
          cases hcn
  | take =>
    rw [stepStop_false_take s hpc]
    refine ⟨hsh, ⟨hsh, ?_, ?_⟩, ⟨hl1, hsaw1, hdc1⟩, hcl, hlen, ?_⟩
    · intro hv
      exfalso
      have := (hsaw0 hv).1
      rw [hpc] at this
      cases this
    · intro hv
      exfalso
      have := hdc0 hv
      rw [hpc] at this
      cases this
    · rcases hprog with ⟨ha, hm0, hm1, hd0', hd1'⟩ | hb | ⟨hcn, hw⟩
      · refine Or.inl ⟨ha, fun _ => ha, hm1, by simp, hd1'⟩
      · exact Or.inr (Or.inl hb)
      · rcases hw with ⟨hm, _⟩ | hw1
        · rcases hm with hm | hm <;> (rw [hpc] at hm; simp at hm)
        · exact Or.inr (Or.inr ⟨hcn, Or.inr hw1⟩)
  | clear =>
    rw [stepStop_false_clear s hpc]
    refine ⟨Or.inl rfl, ⟨hl0, ?_, ?_⟩, ⟨hl1, hsaw1, hdc1⟩, hcl, hlen, ?_⟩
    · intro hv
      exfalso
      have := (hsaw0 hv).1
      rw [hpc] at this
      cases this
    · intro hv
      exfalso
      have := hdc0 hv
      rw [hpc] at this
      cases this
    · rcases hprog with ⟨ha, hm0, hm1, hd0', hd1'⟩ | hb | ⟨hcn, hw⟩
      · refine Or.inr (Or.inr ⟨rfl, Or.inl ⟨Or.inr rfl, ?_⟩⟩)
        exact hm0 (Or.inl hpc)
      · exact Or.inr (Or.inl hb)
      · rcases hw with ⟨_, hlv⟩ | hw1
        · exact Or.inr (Or.inr ⟨rfl, Or.inl ⟨Or.inr rfl, hlv⟩⟩)
        · exact Or.inr (Or.inr ⟨rfl, Or.inr hw1⟩)
  | closeW =>
    have hdcf : s.t0.didClose = false := by
      cases hv : s.t0.didClose
      · rfl
      · have := hdc0 hv
        rw [hpc] at this
        cases this
    cases hlv : s.t0.l with
    | none =>
      rw [stepStop_false_closeW_none s hpc hlv]
      refine ⟨hsh, ⟨hl0, fun hv => ⟨rfl, hdcf⟩, fun _ => rfl⟩,
        ⟨hl1, hsaw1, hdc1⟩, hcl, hlen, ?_⟩
      rcases hprog with ⟨ha, hm0, hm1, hd0', hd1'⟩ | hb | ⟨hcn, hw⟩
      · exfalso
        have := hm0 (Or.inr hpc)
        rw [hlv] at this
        cases this
      · exact Or.inr (Or.inl hb)
      · rcases hw with ⟨_, hlv2⟩ | hw1
        · exfalso
          rw [hlv] at hlv2
          cases hlv2
        · exact Or.inr (Or.inr ⟨hcn, Or.inr hw1⟩)
    | some x =>
      have hx : x = h := by
        rcases hl0 with h1 | h1
        · rw [hlv] at h1
          cases h1
        · rw [hlv] at h1
          injection h1
      subst hx
      rw [stepStop_false_closeW_some s x hpc hlv]
      refine ⟨hsh, ⟨hl0, ?_, fun _ => rfl⟩, ⟨hl1, hsaw1, hdc1⟩, ?_, ?_, ?_⟩
      · intro hv
        exfalso
        have := (hsaw0 hv).1
        rw [hpc] at this
        cases this
      · intro y hy
        rw [List.mem_append] at hy
        rcases hy with hy | hy
        · exact hcl y hy
        · rw [List.mem_singleton] at hy
          exact hy
      · have h0 : countClose s.t0 = 0 := by
          unfold countClose
          rw [hdcf]
          rfl
        have h1 : countClose { s.t0 with pc := StopPC.done, didClose := true } = 1 := rfl
        rw [List.length_append, h1]
        rw [h0] at hlen
        simp only [List.length_singleton]
        omega
      · refine Or.inr (Or.inl ?_)
        simp
  | done =>
    rw [stepStop_false_done s hpc]
    exact ⟨hsh, ⟨hl0, hsaw0, hdc0⟩, ⟨hl1, hsaw1, hdc1⟩, hcl, hlen, hprog⟩

lemma stepStop_inv (h : Listener) (who : Bool) (s : StopSys)
    (hinv : StopInv h s) : StopInv h (stepStop who s) := by
  cases who with
  | false => exact stepStop_false_inv h s hinv
  | true =>
    rw [stepStop_true_eq_swap, StopInv_swap]
    exact stepStop_false_inv h (swapSys s) ((StopInv_swap h s).mpr hinv)

lemma runStop_inv (h : Listener) (sched : List Bool) :
    ∀ s : StopSys, StopInv h s → StopInv h (runStop sched s) := by
  induction sched with
  | nil => exact fun s hs => hs
  | cons w ws ih => exact fun s hs => ih (stepStop w s) (stepStop_inv h w s hs)

lemma initStop_inv (h : Listener) : StopInv h (initStop h) := by
  refine ⟨Or.inr rfl, ⟨Or.inl rfl, ?_, ?_⟩, ⟨Or.inl rfl, ?_, ?_⟩, ?_, rfl, ?_⟩
  · intro hv
    simp [initStop, initThread] at hv
  · intro hv
    simp [initStop, initThread] at hv
  · intro hv
    simp [initStop, initThread] at hv
  · intro hv
    simp [initStop, initThread] at hv
  · intro x hx
    simp [initStop] at hx
  · refine Or.inl ⟨rfl, ?_, ?_, ?_, ?_⟩
    · intro hm
      rcases hm with hm | hm <;> simp [initStop, initThread] at hm
    · intro hm
      rcases hm with hm | hm <;> simp [initStop, initThread] at hm
    · simp [initStop, initThread]
    · simp [initStop, initThread]

/-! ## Claim C5 -/

/-- Claim C5 counterexample: the interleaving in which both calls pass
the initial check and copy the handle before either clears it ends
with both calls finished and TWO `Close` invocations on the same
handle - refuting "exactly one call closes the captured listener
handle and the other performs a no-op" as a property of every
interleaving. -/
theorem c5_counterexample :
    (runStop [false, false, true, true, false, false, true, true]
      (initStop 7)).t0.pc = .done ∧
    (runStop [false, false, true, true, false, false, true, true]
      (initStop 7)).t1.pc = .done ∧
    (runStop [false, false, true, true, false, false, true, true]
      (initStop 7)).closes = [7, 7] := by
  refine ⟨rfl, rfl, rfl⟩

/-- Claim C5 (amended): under every interleaving of two concurrent
`Stop()` calls on a started forwarder, `Close` is only ever invoked on
the real captured handle (never on an absent one, so no call panics),
at most two closes occur, a completed pair of calls performs at least
one close, and a call that observed an absent handle at its initial
check closes nothing - but two racing calls may both close the handle,
so "exactly one real close" is not guaranteed. -/
theorem c5_stop_race_amended (sched : List Bool) (h : Listener) :
    (∀ x ∈ (runStop sched (initStop h)).closes, x = h) ∧
    (runStop sched (initStop h)).closes.length ≤ 2 ∧
    ((runStop sched (initStop h)).t0.pc = .done →
      (runStop sched (initStop h)).t1.pc = .done →
      1 ≤ (runStop sched (initStop h)).closes.length) ∧
    ((runStop sched (initStop h)).t0.sawAbsent = true →
      (runStop sched (initStop h)).t0.didClose = false) ∧
    ((runStop sched (initStop h)).t1.sawAbsent = true →
      (runStop sched (initStop h)).t1.didClose = false) := by
  obtain ⟨hsh, ⟨hl0, hsaw0, hdc0⟩, ⟨hl1, hsaw1, hdc1⟩, hcl, hlen, hprog⟩ :=
    runStop_inv h sched (initStop h) (initStop_inv h)
  refine ⟨hcl, ?_, ?_, fun hv => (hsaw0 hv).2, fun hv => (hsaw1 hv).2⟩
  · have c0 : countClose (runStop sched (initStop h)).t0 ≤ 1 := by
      unfold countClose
      split <;> omega
    have c1 : countClose (runStop sched (initStop h)).t1 ≤ 1 := by
      unfold countClose
      split <;> omega
    omega
  · intro hd0 hd1
    rcases hprog with ⟨_, _, _, hnd, _⟩ | hb | ⟨_, hw⟩
    · exact absurd hd0 hnd
    · have := List.length_pos.mpr hb
      omega
    · rcases hw with ⟨hm, _⟩ | ⟨hm, _⟩
      · rcases hm with hm | hm <;> (rw [hd0] at hm; simp at hm)
      · rcases hm with hm | hm <;> (rw [hd1] at hm; simp at hm)

/-- Claim C5 witness: the fully sequential interleaving - first call
runs to completion, second call then observes the absent handle -
yields one close and a closing-free second call. -/
theorem c5_stop_race_amended_witness :
    1 ≤ (runStop [false, false, false, false, true, true, true, true]
      (initStop 0)).closes.length ∧
    (runStop [false, false, false, false, true, true, true, true]
      (initStop 0)).t1.didClose = false :=
  ⟨(c5_stop_race_amended [false, false, false, false, true, true, true, true] 0).2.2.1
      rfl rfl,
    (c5_stop_race_amended [false, false, false, false, true, true, true, true] 0).2.2.2.2
      rfl⟩
